import Mathlib

/-!
A verification model of the no-sports-zone voice moderation bot.

The embedded code:
* `src/audioProcessor.ts` — class `AudioProcessor`: admission control
  (`setupUserAudioCapture` lines 47-60), stuck-task timeout (lines 63-69),
  quality gate (lines 94-119), transcription and cleanup (lines 121-161),
  the promise-chain transcription lock (lines 164, 292), ffmpeg enhancement
  (`convertAudio`, lines 167-215), Vosk recognition (`recognizeAudio`,
  lines 218-271), `transcribeAudio` (lines 273-294) and
  `calculateAudioEnergy` (lines 296-306).
* `src/index.ts` — class `NoSportsZoneBot`: voice-state handling with
  cooldowns (`handleVoiceStateUpdate`, lines 136-199), `monitorUser`
  (lines 239-261) and `kickUser` (lines 275-296).
* `src/sportsDetector.ts` — class `SportsDetector`: `detectSports`,
  `addKeyword`, `removeKeyword`.

Modelling conventions:
* JavaScript `Set<string>` fields become `Finset String`; the scratch
  directory's file system becomes a `Finset String` of existing paths.
* A raw PCM scratch file is modelled by its list of signed 16-bit samples
  (`List ℤ`); its byte length is `2 * samples.length` (s16le layout, the
  layout the Opus decoder writes).
* JavaScript `Map<string, number>` becomes an association list.
* `Math.sqrt` is not computable in Lean, so the energy gate compares the
  mean square against `MIN_ENERGY * MIN_ENERGY` (equivalent for
  non-negative arguments, proved in `sqrt_energy_lt_iff`); the claim
  theorems state the original `Real.sqrt` form.
* Fallible JavaScript operations are modelled as `Except`, `Option` or
  outcome records; a `try`/`catch` becomes a `match` on the outcome.
* Event dispatch in node is single threaded, so each event handler runs
  atomically up to its first `await`; traces of handler invocations model
  concurrency.
-/

/-! ## Constants (audioProcessor.ts lines 19-23, index.ts line 37) -/

def MAX_CONCURRENT : ℕ := 5

def MIN_AUDIO_BYTES : ℕ := 2048

def MIN_AUDIO_DURATION_MS : ℚ := 500

def PROCESSING_TIMEOUT_MS : ℕ := 15000

def MIN_ENERGY : ℚ := 100

def COOLDOWN_MS : ℕ := 10000

/-! ## AudioProcessor state and scheduler (audioProcessor.ts lines 17-18, 47-69, 157-161) -/

/-- The mutable state of an `AudioProcessor` instance together with the
scratch-file directory: `processingQueue` and `activeUsers` are the two
`Set<string>` fields (lines 17-18), `files` is the set of scratch-file paths
currently existing on disk. -/
structure ProcState where
  processingQueue : Finset String
  activeUsers : Finset String
  files : Finset String
deriving DecidableEq

def procEmpty : ProcState := ⟨∅, ∅, ∅⟩

/-- The admission prefix of `setupUserAudioCapture` (lines 47-60): skip if the
user already has audio being processed, skip if the queue is full, otherwise
register the user and the processing key `userId-Date.now()`. Returns the
updated state and whether the call was admitted. -/
def admission (st : ProcState) (uid key : String) : ProcState × Bool :=
  if uid ∈ st.activeUsers then (st, false)
  else if MAX_CONCURRENT ≤ st.processingQueue.card then (st, false)
  else ({ st with activeUsers := insert uid st.activeUsers,
                  processingQueue := insert key st.processingQueue }, true)

/-- The `finally` block of `setupUserAudioCapture` (lines 157-161):
`clearTimeout` (no state here), delete the processing key, delete the user. -/
def cleanupFinally (st : ProcState) (uid key : String) : ProcState :=
  { st with processingQueue := st.processingQueue.erase key,
            activeUsers := st.activeUsers.erase uid }

/-- The timeout callback (lines 64-69): if the processing key is still
registered, delete it from the queue; nothing else. -/
def timeoutHandler (st : ProcState) (key : String) : ProcState :=
  if key ∈ st.processingQueue then
    { st with processingQueue := st.processingQueue.erase key }
  else st

/-- A burst of simultaneous speaker-start events dispatched back to back (the
node event loop runs each admission prefix atomically): fold `admission` over
the speaker list, counting admitted and rejected calls. -/
def admitAll (st : ProcState) : List String → ProcState × ℕ × ℕ
  | [] => (st, 0, 0)
  | u :: us =>
      let r := admission st u (u ++ "-0")
      let rest := admitAll r.1 us
      (rest.1, (if r.2 then 1 else 0) + rest.2.1, (if r.2 then 0 else 1) + rest.2.2)

/-! ## Quality gate (audioProcessor.ts lines 94-119, 296-306) -/

/-- The sum of squared samples accumulated by `calculateAudioEnergy`
(lines 300-303). -/
def sumSquares (samples : List ℤ) : ℤ := (samples.map fun s => s * s).sum

/-- The mean square of the samples: `sumSquares / samples.length` (line 305
computes `Math.sqrt` of this value; the square root is taken in the claim
statements, where it lives in `ℝ`). -/
def calculateAudioEnergySq (samples : List ℤ) : ℚ :=
  (sumSquares samples : ℚ) / (samples.length : ℚ)

inductive GateOutcome where
  | tooSmall
  | tooShort
  | tooQuiet
  | accepted
deriving DecidableEq, Repr

/-- The three checks of the quality gate (lines 99-119), in source order:
byte size (`stats.size < MIN_AUDIO_BYTES`), estimated duration
(`(stats.size / 192000) * 1000 < MIN_AUDIO_DURATION_MS`), RMS energy
(`energy < MIN_ENERGY`, stated here on the mean square against
`MIN_ENERGY * MIN_ENERGY`). The byte size of the s16le scratch file is
`2 * samples.length`. -/
def qualityGate (samples : List ℤ) : GateOutcome :=
  if 2 * samples.length < MIN_AUDIO_BYTES then .tooSmall
  else if ((2 * samples.length : ℕ) : ℚ) / 192000 * 1000 < MIN_AUDIO_DURATION_MS then .tooShort
  else if calculateAudioEnergySq samples < MIN_ENERGY * MIN_ENERGY then .tooQuiet
  else .accepted

/-- The quality gate together with its file-system effect: each rejecting
branch calls `unlinkSync(filename)` before returning (lines 101, 107, 117);
the accepting branch leaves the file for transcription. -/
def qualityGateRun (files : Finset String) (filename : String) (samples : List ℤ) :
    GateOutcome × Finset String :=
  if 2 * samples.length < MIN_AUDIO_BYTES then (.tooSmall, files.erase filename)
  else if ((2 * samples.length : ℕ) : ℚ) / 192000 * 1000 < MIN_AUDIO_DURATION_MS then
    (.tooShort, files.erase filename)
  else if calculateAudioEnergySq samples < MIN_ENERGY * MIN_ENERGY then
    (.tooQuiet, files.erase filename)
  else (.accepted, files)

/-! ## The capture pipeline (audioProcessor.ts lines 42-162) -/

/-- A model of JavaScript `text.trim()` on the character list (strips
whitespace from both ends). `String.trim` of core Lean does not reduce in the
kernel, so the model carries its own executable trim. -/
def trimChars (l : List Char) : List Char :=
  ((l.dropWhile Char.isWhitespace).reverse.dropWhile Char.isWhitespace).reverse

def trimStr (s : String) : String := ⟨trimChars s.data⟩

/-- What the environment does to one admitted capture: either the
opus/pcm stream pipeline throws (line 91 rejects: premature close, corrupt
frame, ENOENT, ...), or it completes with the decoded samples, after which
transcription yields `text` and the `onTranscription` callback either returns
or throws (`cbThrows`). `transcribeAudio` itself never throws
(`transcribe_never_throws`), so its outcome is just the text. -/
inductive RunEvent where
  | captureError : RunEvent
  | run : List ℤ → String → Bool → RunEvent

/-- The body of `setupUserAudioCapture` from the `try` at line 90 to the end
(lines 90-161), entered with the scratch file already created: on a stream
error the `catch` deletes the scratch file if it exists; otherwise the gate
runs (deleting the file on rejection), then transcription, then — when the
trimmed text is non-empty — `onTranscription` (line 128); the scratch file is
deleted on every continuation (line 134 on the normal path, the `catch` block
when the callback throws); the `finally` block always removes the processing
key and the active user. Returns the final state and whether `onTranscription`
was invoked. -/
def setupBody (st : ProcState) (uid key filename : String) (ev : RunEvent) :
    ProcState × Bool :=
  match ev with
  | .captureError =>
      (cleanupFinally { st with files := st.files.erase filename } uid key, false)
  | .run samples text cbThrows =>
      match (qualityGateRun st.files filename samples).1 with
      | .accepted =>
          if trimStr text ≠ "" then
            if cbThrows then
              (cleanupFinally { st with files := st.files.erase filename } uid key, true)
            else
              (cleanupFinally { st with files := st.files.erase filename } uid key, true)
          else
            (cleanupFinally { st with files := st.files.erase filename } uid key, false)
      | _ =>
          (cleanupFinally { st with files := (qualityGateRun st.files filename samples).2 }
            uid key, false)

/-- One whole `setupUserAudioCapture` call (lines 42-162): admission, scratch
file creation (`createWriteStream`, line 91), an optional firing of the
15-second timeout while the pipeline is still pending (`timeoutFires`), then
the body. Result: final state, whether the call was admitted, whether
`onTranscription` was invoked. -/
def setupFull (st : ProcState) (uid key filename : String) (ev : RunEvent)
    (timeoutFires : Bool) : ProcState × Bool × Bool :=
  let r := admission st uid key
  if r.2 then
    let st2 := { r.1 with files := insert filename r.1.files }
    let st3 := if timeoutFires then timeoutHandler st2 key else st2
    let body := setupBody st3 uid key filename ev
    (body.1, true, body.2)
  else (r.1, false, false)

/-! ## Enhancement and recognition (audioProcessor.ts lines 164-294) -/

/-- Environment behaviour of one ffmpeg invocation in `convertAudio`
(lines 167-215): whether `spawn` errors, the exit code reported by `close`,
and whether the subprocess wrote its output file. -/
structure FfmpegRun where
  spawnFails : Bool
  exitCode : ℤ
  wroteOutput : Bool
deriving DecidableEq

/-- `convertAudio` (lines 167-215): resolves `null` on a spawn error or a
non-zero exit code, otherwise the converted path `filename + ".converted.pcm"`.
The promise never rejects. The returned set is the file system afterwards:
whatever the subprocess wrote exists regardless of the exit code. -/
def convertAudio (fb : FfmpegRun) (files : Finset String) (filename : String) :
    Option String × Finset String :=
  if fb.spawnFails then (none, files)
  else
    let files1 := if fb.wroteOutput then insert (filename ++ ".converted.pcm") files else files
    if fb.exitCode ≠ 0 then (none, files1)
    else (some (filename ++ ".converted.pcm"), files1)

/-- Environment behaviour of one Vosk recognizer session in `recognizeAudio`
(lines 218-271): whether `readFileSync` throws, whether some intermediate
`JSON.parse` throws, the `text` fields of the accepted intermediate results,
and the `text` field of `finalResult` (absent when the final result is null,
not an object, or lacks a string `text`). -/
structure RecognizerRun where
  readFails : Bool
  parseThrows : Bool
  chunkTexts : List (Option String)
  finalText : Option String
deriving DecidableEq

/-- The `try` body of `recognizeAudio` (lines 220-263): read the converted
file, accumulate `result.text + " "` for each accepted waveform, append the
final result's text, return the trimmed transcription. An exception anywhere
surfaces as `Except.error`. -/
def recognizeAudioBody (vr : RecognizerRun) : Except Unit String :=
  if vr.readFails then .error ()
  else if vr.parseThrows then .error ()
  else .ok ((vr.chunkTexts.foldl
      (fun acc t? => match t? with
        | some t => acc ++ t ++ " "
        | none => acc) "")
    ++ (match vr.finalText with | some t => t | none => ""))

/-- `recognizeAudio` (lines 218-271): the `catch` at line 264 turns any
exception into the empty string (after freeing the recognizer), the normal
path returns `transcription.trim()` (line 263). -/
def recognizeAudio (vr : RecognizerRun) : String :=
  match recognizeAudioBody vr with
  | .ok transcription => trimStr transcription
  | .error _ => ""

/-- `transcribeAudio` (lines 273-294): convert with ffmpeg; if that yields no
path or the path does not exist, return `""`; otherwise run the serialized
`recognize` closure, which returns `recognizeAudio`'s text and deletes the
converted file on both its paths (lines 284 and 287). The `Except` return
type carries the possibility of an uncaught exception; the function is proved
to always return `Except.ok`. -/
def transcribeAudio (fb : FfmpegRun) (vr : RecognizerRun) (files : Finset String)
    (filename : String) : Except Unit (String × Finset String) :=
  match convertAudio fb files filename with
  | (none, files1) => .ok ("", files1)
  | (some convertedFile, files1) =>
      if convertedFile ∈ files1 then
        .ok (recognizeAudio vr, files1.erase convertedFile)
      else .ok ("", files1)

/-- The settlement status of `this.transcriptionLock` after `n` chained
`transcribeAudio` calls (line 164 initializes it to `Promise.resolve()`;
line 292 replaces it by `lock.then(() => recognize())`): `.then` without a
rejection handler propagates a rejected predecessor, and fulfills when
`recognize()` returns — which it always does, since `recognize` catches every
exception. -/
def lockChain : ℕ → Except Unit Unit
  | 0 => .ok ()
  | n + 1 =>
      match lockChain n with
      | .ok _ => .ok ()
      | .error e => .error e

/-! ## The transcription lock as a schedule (audioProcessor.ts lines 164, 280-293) -/

/-- A timing trace of the calls chained through `this.transcriptionLock`.
Call `k` is the `k`-th `transcribeAudio` to execute line 292
(`this.transcriptionLock = this.transcriptionLock.then(() => recognize())`);
the read-modify-write of the lock field is atomic because node event dispatch
is single threaded, so the chain index is the order the calls reached the
chaining point. `begins k`/`finishes k` are the instants the `k`-th
`recognize()` starts and returns. The two fields after them are the promise
semantics: a call occupies a real interval, and the `.then` callback of chain
link `k+1` cannot start before promise `k` settles, which happens when
`recognize()` number `k` returns. -/
structure LockTrace where
  begins : ℕ → ℚ
  finishes : ℕ → ℚ
  begin_le_finish : ∀ k, begins k ≤ finishes k
  chain_discipline : ∀ k, finishes k ≤ begins (k + 1)

/-- Chained call `k` is executing against the Vosk recognizer at instant `t`. -/
def runningAt (tr : LockTrace) (k : ℕ) (t : ℚ) : Prop :=
  tr.begins k ≤ t ∧ t < tr.finishes k

/-- A concrete schedule satisfying the chaining discipline (call `k` runs on
the interval from `2k` to `2k+1`). -/
def sampleLockTrace : LockTrace where
  begins := fun k => (k : ℚ) * 2
  finishes := fun k => (k : ℚ) * 2 + 1
  begin_le_finish := fun k => by norm_num
  chain_discipline := fun k => by push_cast; linarith

/-! ## Sports detector (sportsDetector.ts) -/

/-- JavaScript word characters for the regex `\b` boundary: `[A-Za-z0-9_]`
(code points 65-90, 97-122, 48-57, 95). -/
def isWordNat (n : ℕ) : Bool :=
  (decide (65 ≤ n) && decide (n ≤ 90)) || (decide (97 ≤ n) && decide (n ≤ 122)) ||
  (decide (48 ≤ n) && decide (n ≤ 57)) || (n == 95)

def isWordChar (c : Char) : Bool := isWordNat c.toNat

/-- JavaScript `toLowerCase` on one character, for the basic latin range the
keyword set lives in: `A`-`Z` (65-90) maps down by 32, everything else is
fixed. -/
def lowerChar (c : Char) : Char :=
  if 65 ≤ c.toNat ∧ c.toNat ≤ 90 then Char.ofNat (c.toNat + 32) else c

/-- JavaScript `String.prototype.toLowerCase` (per-character on this range). -/
def lowerStr (s : String) : String := ⟨s.data.map lowerChar⟩

/-- Case-insensitive character comparison, the `i` regex flag. -/
def ciEqChar (a b : Char) : Bool := lowerChar a == lowerChar b

/-- Word-character status of position `i` of the subject text; positions
outside the text count as non-word (regex semantics at the string edges). -/
def wordAt (t : List Char) (i : ℕ) : Bool :=
  match t[i]? with
  | some c => isWordChar c
  | none => false

/-- The regex `\b` assertion at position `p`: the word-character status
changes between the previous position and `p`. -/
def boundaryAt (t : List Char) (p : ℕ) : Bool :=
  (if p = 0 then false else wordAt t (p - 1)) != wordAt t p

/-- The keyword matches the subject text at position `p`, character by
character, case-insensitively. -/
def matchesAt (k t : List Char) (p : ℕ) : Bool :=
  (List.range k.length).all fun j =>
    match k[j]?, t[p + j]? with
    | some d, some c => ciEqChar d c
    | _, _ => false

/-- `new RegExp("\\b" + keyword + "\\b", "i").test(t)` for a keyword without
regex metacharacters (true of the configured set, which is plain words):
some position matches the keyword with a word boundary on both sides. -/
def testWholeWord (k t : List Char) : Bool :=
  (List.range (t.length + 1)).any fun p =>
    matchesAt k t p && boundaryAt t p && boundaryAt t (p + k.length)

/-- The `SportsDetector` state: its `Set<string>` of keywords, kept as the
insertion-ordered duplicate-free list the JavaScript `Set` iterates. -/
structure SportsDetector where
  sportsKeywords : List String
deriving DecidableEq

/-- `detectSports` (sportsDetector.ts lines 85-100): lower-case the text, test
each keyword as a case-insensitive whole-word regex, collect the matching
keywords in iteration order, report detection when at least one matched. -/
def detectSports (d : SportsDetector) (text : String) : Bool × List String :=
  let lowerText := (lowerStr text).data
  let detectedKeywords := d.sportsKeywords.filter fun kw => testWholeWord kw.data lowerText
  (decide (0 < detectedKeywords.length), detectedKeywords)

/-- `addKeyword` (lines 102-104): `Set.add` of the lower-cased term (appends
only when absent). -/
def addKeyword (d : SportsDetector) (kw : String) : SportsDetector :=
  if lowerStr kw ∈ d.sportsKeywords then d
  else { d with sportsKeywords := d.sportsKeywords ++ [lowerStr kw] }

/-- `removeKeyword` (lines 106-108): `Set.delete` of the lower-cased term. -/
def removeKeyword (d : SportsDetector) (kw : String) : SportsDetector :=
  { d with sportsKeywords := d.sportsKeywords.erase (lowerStr kw) }

/-- Specification-side predicate, stated on the original (un-lowered) text:
the configured term occurs in the text as a whole word, word-boundary
delimited, under case-insensitive matching. -/
def occursAsWholeWordCI (kw text : String) : Prop :=
  ∃ p, matchesAt kw.data text.data p = true ∧ boundaryAt text.data p = true ∧
       boundaryAt text.data (p + kw.data.length) = true

/-! ## Bot state and voice events (index.ts) -/

/-- The `NoSportsZoneBot` state relevant to monitoring and cooldowns:
`monitoredUsers` (the `Set<string>` of `guildId-userId` keys, line 35),
`listeners` — the multiset of `receiver.speaking.on('start', ...)` listeners
registered by `monitorUser` (line 251), which nothing ever removes —
`userCooldowns` (the `Map<string, number>` of line 36), the audio processor
state, and the record of capture tasks created, as (userId, time) pairs. -/
structure BotState where
  monitoredUsers : Finset String
  listeners : List String
  userCooldowns : List (String × ℕ)
  proc : ProcState
  captures : List (String × ℕ)
deriving DecidableEq

def initialBot : BotState := ⟨∅, [], [], procEmpty, []⟩

def eraseCooldown (l : List (String × ℕ)) (uid : String) : List (String × ℕ) :=
  l.filter fun p => p.1 != uid

/-- `monitorUser` (index.ts lines 239-261): return early when the
`guildId-userId` key is already monitored; otherwise register the key and
attach a `speaking.on('start')` listener for that member. -/
def monitorUser (st : BotState) (guildId uid : String) : BotState :=
  if guildId ++ "-" ++ uid ∈ st.monitoredUsers then st
  else { st with monitoredUsers := insert (guildId ++ "-" ++ uid) st.monitoredUsers,
                 listeners := (guildId ++ "-" ++ uid) :: st.listeners }

/-- The user-joined branch of `handleVoiceStateUpdate` (index.ts
lines 140-172), in a guild where the bot holds an active connection and the
user stays in the channel: a user on an unexpired cooldown is not monitored
now (a timer is scheduled instead, modelled by the separate `cooldownFire`
event); an expired cooldown is deleted and the user is monitored; otherwise
the user is monitored immediately. -/
def joinEvent (st : BotState) (guildId uid : String) (now : ℕ) : BotState :=
  match st.userCooldowns.lookup uid with
  | some cooldownEnd =>
      if now < cooldownEnd then st
      else monitorUser { st with userCooldowns := eraseCooldown st.userCooldowns uid } guildId uid
  | none => monitorUser st guildId uid

/-- The deferred `setTimeout` callback of lines 152-159 firing at the
cooldown's end: delete the cooldown and monitor the user (assuming the
connection is live and the member is in a voice channel). -/
def cooldownFire (st : BotState) (guildId uid : String) : BotState :=
  monitorUser { st with userCooldowns := eraseCooldown st.userCooldowns uid } guildId uid

/-- A `speaking.on('start')` event for `uid` (the listener body, index.ts
lines 251-260): if a listener for this member is attached it calls
`setupUserAudioCapture`, whose admission prefix runs synchronously; an
admitted call is a created capture task. The cooldown map is not consulted
here. -/
def speakingStart (st : BotState) (guildId uid : String) (now : ℕ) : BotState :=
  let userKey := guildId ++ "-" ++ uid
  if userKey ∈ st.listeners then
    let r := admission st.proc uid (uid ++ "-" ++ toString now)
    if r.2 then { st with proc := r.1, captures := (uid, now) :: st.captures }
    else { st with proc := r.1 }
  else st

/-- An admitted capture task finishing its pipeline: the `finally` block of
`setupUserAudioCapture` releases the key and the user. -/
def captureComplete (st : BotState) (uid key : String) : BotState :=
  { st with proc := cleanupFinally st.proc uid key }

/-- `kickUser` (index.ts lines 275-296), with the disconnect succeeding:
`userCooldowns.set(member.id, Date.now() + COOLDOWN_MS)`. Neither
`monitoredUsers` nor the speaking listener is touched. -/
def kickUser (st : BotState) (uid : String) (now : ℕ) : BotState :=
  { st with userCooldowns := (uid, now + COOLDOWN_MS) :: eraseCooldown st.userCooldowns uid }

/-- The subscription invariant of the `MonitoredSpeakerSet`: every
`guildId-userId` key has at most one attached speaking listener, and it has
one exactly when the key is registered in `monitoredUsers`. -/
def ListenerInv (st : BotState) : Prop :=
  ∀ k : String, st.listeners.count k ≤ 1 ∧ (st.listeners.count k = 1 ↔ k ∈ st.monitoredUsers)

/-! ## Concrete inputs used by witnesses and counterexamples -/

/-- 48000 samples of amplitude 200: 96000 bytes, estimated duration 500 ms,
mean square 40000 — passes every gate check. -/
def loudSamples : List ℤ := List.replicate 48000 (200 : ℤ)

/-- 1024 zero samples: 2048 bytes (passes the byte gate), but 10.67 ms
estimated duration (fails the duration gate). -/
def quietSamples : List ℤ := List.replicate 1024 (0 : ℤ)

/-- The event trace that defeats the cooldown: alice joins and is monitored,
speaks (capture 1 admitted at t=1), the capture completes, she is kicked at
t=2 (cooldown until t=10002), rejoins at t=3 during the cooldown (monitoring
is deferred — but the old listener is still attached), and speaks at t=4. -/
def cooldownTrace : BotState :=
  let s1 := joinEvent initialBot "g" "alice" 0
  let s2 := speakingStart s1 "g" "alice" 1
  let s3 := captureComplete s2 "alice" ("alice" ++ "-" ++ toString (1 : ℕ))
  let s4 := kickUser s3 "alice" 2
  let s5 := joinEvent s4 "g" "alice" 3
  speakingStart s5 "g" "alice" 4

/-! ## Helper lemmas -/

theorem admission_reject_full (st : ProcState) (u k : String)
    (h : MAX_CONCURRENT ≤ st.processingQueue.card) : admission st u k = (st, false) := by
  unfold admission
  by_cases hu : u ∈ st.activeUsers
  · rw [if_pos hu]
  · rw [if_neg hu, if_pos h]

theorem admission_accept (st : ProcState) (u k : String) (hu : u ∉ st.activeUsers)
    (hc : st.processingQueue.card < MAX_CONCURRENT) :
    admission st u k = ({ st with activeUsers := insert u st.activeUsers,
                                  processingQueue := insert k st.processingQueue }, true) := by
  unfold admission
  rw [if_neg hu, if_neg (by omega)]

theorem admission_reject_active (st : ProcState) (u k : String) (hu : u ∈ st.activeUsers) :
    admission st u k = (st, false) := by
  unfold admission
  rw [if_pos hu]

theorem admitAll_total (us : List String) : ∀ st : ProcState,
    (admitAll st us).2.1 + (admitAll st us).2.2 = us.length := by
  induction us with
  | nil => intro st; simp [admitAll]
  | cons u us ih =>
      intro st
      simp only [admitAll, List.length_cons]
      have := ih (admission st u (u ++ "-0")).1
      split <;> omega

theorem string_append_cancel {a b c : String} (h : a ++ c = b ++ c) : a = b := by
  have hd : a.data ++ c.data = b.data ++ c.data := by
    have := congrArg String.data h
    simpa [String.data_append] using this
  exact String.ext (List.append_cancel_right hd)

theorem admitAll_spec (us : List String) : ∀ st : ProcState, us.Nodup →
    (∀ u ∈ us, u ∉ st.activeUsers) → (∀ u ∈ us, (u ++ "-0") ∉ st.processingQueue) →
    st.processingQueue.card ≤ MAX_CONCURRENT →
    (admitAll st us).2.1 = min us.length (MAX_CONCURRENT - st.processingQueue.card) ∧
    (admitAll st us).1.processingQueue.card ≤ MAX_CONCURRENT := by
  induction us with
  | nil =>
      intro st _ _ _ hc
      simp only [admitAll, List.length_nil]
      omega
  | cons u us ih =>
      intro st hnd hact hkey hc
      have hu : u ∉ st.activeUsers := hact u (List.mem_cons_self u us)
      have hk : (u ++ "-0") ∉ st.processingQueue := hkey u (List.mem_cons_self u us)
      have hnd' : us.Nodup := (List.nodup_cons.1 hnd).2
      have hnotmem : u ∉ us := (List.nodup_cons.1 hnd).1
      by_cases hfull : MAX_CONCURRENT ≤ st.processingQueue.card
      · have hrej := admission_reject_full st u (u ++ "-0") hfull
        have hrej1 : (admission st u (u ++ "-0")).1 = st := by rw [hrej]
        have hrej2 : (admission st u (u ++ "-0")).2 = false := by rw [hrej]
        have hrest := ih st hnd' (fun v hv => hact v (List.mem_cons_of_mem u hv))
          (fun v hv => hkey v (List.mem_cons_of_mem u hv)) hc
        have h1 := hrest.1
        refine ⟨?_, ?_⟩
        · simp only [admitAll, hrej1, hrej2, List.length_cons, Bool.false_eq_true, if_false]
          omega
        · simp only [admitAll, hrej1, hrej2]
          exact hrest.2
      · push_neg at hfull
        have hacc := admission_accept st u (u ++ "-0") hu hfull
        set st' : ProcState := { st with activeUsers := insert u st.activeUsers,
                                         processingQueue := insert (u ++ "-0") st.processingQueue }
          with hst'
        have hcard : st'.processingQueue.card = st.processingQueue.card + 1 :=
          Finset.card_insert_of_not_mem hk
        have hact' : ∀ v ∈ us, v ∉ st'.activeUsers := by
          intro v hv
          have hvne : v ≠ u := fun e => hnotmem (e ▸ hv)
          have := hact v (List.mem_cons_of_mem u hv)
          simp only [hst', Finset.mem_insert]
          tauto
        have hkey' : ∀ v ∈ us, (v ++ "-0") ∉ st'.processingQueue := by
          intro v hv
          have hvne : v ≠ u := fun e => hnotmem (e ▸ hv)
          have hne : (v ++ "-0") ≠ (u ++ "-0") := fun e => hvne (string_append_cancel e)
          have := hkey v (List.mem_cons_of_mem u hv)
          simp only [hst', Finset.mem_insert]
          tauto
        have hacc1 : (admission st u (u ++ "-0")).1 = st' := by rw [hacc]
        have hacc2 : (admission st u (u ++ "-0")).2 = true := by rw [hacc]
        have hrest := ih st' hnd' hact' hkey' (by omega)
        rw [hcard] at hrest
        have h1 := hrest.1
        refine ⟨?_, ?_⟩
        · simp only [admitAll, hacc1, hacc2, List.length_cons, if_true]
          omega
        · simp only [admitAll, hacc1, hacc2]
          exact hrest.2

theorem qualityGateRun_fst (files : Finset String) (filename : String) (samples : List ℤ) :
    (qualityGateRun files filename samples).1 = qualityGate samples := by
  unfold qualityGateRun qualityGate
  split_ifs <;> rfl

theorem qualityGateRun_snd (files : Finset String) (filename : String) (samples : List ℤ) :
    (qualityGateRun files filename samples).2 =
      if qualityGate samples = GateOutcome.accepted then files else files.erase filename := by
  unfold qualityGateRun qualityGate
  split_ifs <;> first | rfl | simp_all

theorem qualityGate_tooSmall_iff (samples : List ℤ) :
    qualityGate samples = GateOutcome.tooSmall ↔ 2 * samples.length < MIN_AUDIO_BYTES := by
  unfold qualityGate
  split_ifs <;> simp_all

theorem qualityGate_tooShort_iff (samples : List ℤ) :
    qualityGate samples = GateOutcome.tooShort ↔
      ¬ 2 * samples.length < MIN_AUDIO_BYTES ∧
      ((2 * samples.length : ℕ) : ℚ) / 192000 * 1000 < MIN_AUDIO_DURATION_MS := by
  unfold qualityGate
  split_ifs <;> simp_all

theorem qualityGate_tooQuiet_iff (samples : List ℤ) :
    qualityGate samples = GateOutcome.tooQuiet ↔
      ¬ 2 * samples.length < MIN_AUDIO_BYTES ∧
      ¬ ((2 * samples.length : ℕ) : ℚ) / 192000 * 1000 < MIN_AUDIO_DURATION_MS ∧
      calculateAudioEnergySq samples < MIN_ENERGY * MIN_ENERGY := by
  unfold qualityGate
  split_ifs <;> simp_all

theorem qualityGate_accepted_iff (samples : List ℤ) :
    qualityGate samples = GateOutcome.accepted ↔
      ¬ 2 * samples.length < MIN_AUDIO_BYTES ∧
      ¬ ((2 * samples.length : ℕ) : ℚ) / 192000 * 1000 < MIN_AUDIO_DURATION_MS ∧
      ¬ calculateAudioEnergySq samples < MIN_ENERGY * MIN_ENERGY := by
  unfold qualityGate
  split_ifs <;> simp_all

theorem sumSquares_nonneg (samples : List ℤ) : 0 ≤ sumSquares samples := by
  unfold sumSquares
  apply List.sum_nonneg
  intro x hx
  rcases List.mem_map.1 hx with ⟨s, _, rfl⟩
  exact mul_self_nonneg s

theorem calculateAudioEnergySq_nonneg (samples : List ℤ) :
    0 ≤ calculateAudioEnergySq samples := by
  unfold calculateAudioEnergySq
  apply div_nonneg
  · exact_mod_cast sumSquares_nonneg samples
  · exact_mod_cast Nat.zero_le samples.length

theorem sqrt_energy_lt_iff (samples : List ℤ) :
    Real.sqrt ((calculateAudioEnergySq samples : ℚ) : ℝ) < ((MIN_ENERGY : ℚ) : ℝ) ↔
      calculateAudioEnergySq samples < MIN_ENERGY * MIN_ENERGY := by
  rw [Real.sqrt_lt' (by norm_num [MIN_ENERGY])]
  rw [show ((MIN_ENERGY : ℚ) : ℝ) ^ 2 = ((MIN_ENERGY * MIN_ENERGY : ℚ) : ℝ) by push_cast; ring]
  exact_mod_cast Iff.rfl

theorem sumSquares_replicate (n : ℕ) (x : ℤ) :
    sumSquares (List.replicate n x) = n * (x * x) := by
  induction n with
  | zero => simp [sumSquares]
  | succ n ih =>
      simp only [List.replicate_succ, sumSquares, List.map_cons, List.sum_cons] at *
      rw [ih]
      push_cast
      ring

theorem qualityGate_loudSamples : qualityGate loudSamples = GateOutcome.accepted := by
  rw [qualityGate_accepted_iff]
  have hs : sumSquares loudSamples = 48000 * (200 * 200) := sumSquares_replicate 48000 200
  unfold calculateAudioEnergySq
  rw [hs]
  simp only [loudSamples, List.length_replicate]
  norm_num [MIN_AUDIO_BYTES, MIN_AUDIO_DURATION_MS, MIN_ENERGY]

theorem qualityGate_quietSamples : qualityGate quietSamples = GateOutcome.tooShort := by
  rw [qualityGate_tooShort_iff]
  simp only [quietSamples, List.length_replicate]
  norm_num [MIN_AUDIO_BYTES, MIN_AUDIO_DURATION_MS]

theorem toNat_ofNat_valid {n : ℕ} (h : Nat.isValidChar n) : (Char.ofNat n).toNat = n := by
  rw [Char.ofNat, dif_pos h]; rfl

theorem toNat_lowerChar (c : Char) :
    (lowerChar c).toNat = if 65 ≤ c.toNat ∧ c.toNat ≤ 90 then c.toNat + 32 else c.toNat := by
  unfold lowerChar
  split
  · next h => exact toNat_ofNat_valid (Or.inl (by omega))
  · rfl

theorem lowerChar_idem (c : Char) : lowerChar (lowerChar c) = lowerChar c := by
  unfold lowerChar
  split
  · next h =>
    rw [if_neg]
    rw [toNat_ofNat_valid (Or.inl (by omega : c.toNat + 32 < 0xd800))]
    omega
  · rfl

theorem isWordChar_lowerChar (c : Char) : isWordChar (lowerChar c) = isWordChar c := by
  unfold isWordChar
  rw [toNat_lowerChar]
  split
  · next h =>
    have l : isWordNat (c.toNat + 32) = true := by simp [isWordNat]; omega
    have r : isWordNat c.toNat = true := by simp [isWordNat]; omega
    rw [l, r]
  · rfl

theorem ciEqChar_lowerChar (d c : Char) : ciEqChar d (lowerChar c) = ciEqChar d c := by
  unfold ciEqChar
  rw [lowerChar_idem]

theorem wordAt_map_lowerChar (t : List Char) (i : ℕ) :
    wordAt (t.map lowerChar) i = wordAt t i := by
  unfold wordAt
  rw [List.getElem?_map]
  cases t[i]? with
  | none => rfl
  | some c => exact isWordChar_lowerChar c

theorem boundaryAt_map_lowerChar (t : List Char) (p : ℕ) :
    boundaryAt (t.map lowerChar) p = boundaryAt t p := by
  unfold boundaryAt
  rw [wordAt_map_lowerChar, wordAt_map_lowerChar]

theorem matchesAt_map_lowerChar (k t : List Char) (p : ℕ) :
    matchesAt k (t.map lowerChar) p = matchesAt k t p := by
  unfold matchesAt
  congr 1
  funext j
  rw [List.getElem?_map]
  cases k[j]? with
  | none => cases t[p + j]? <;> rfl
  | some d =>
      cases t[p + j]? with
      | none => rfl
      | some c => exact ciEqChar_lowerChar d c

theorem boundaryAt_le_length {t : List Char} {p : ℕ} (h : boundaryAt t p = true) :
    p ≤ t.length := by
  by_contra hgt
  push_neg at hgt
  have h1 : wordAt t p = false := by
    unfold wordAt
    rw [List.getElem?_eq_none (by omega)]
  have h0 : p ≠ 0 := by omega
  have h2 : wordAt t (p - 1) = false := by
    unfold wordAt
    rw [List.getElem?_eq_none (by omega)]
  unfold boundaryAt at h
  rw [if_neg h0, h1, h2] at h
  simp at h

theorem testWholeWord_iff (k t : List Char) :
    testWholeWord k t = true ↔
      ∃ p, matchesAt k t p = true ∧ boundaryAt t p = true ∧
           boundaryAt t (p + k.length) = true := by
  unfold testWholeWord
  rw [List.any_eq_true]
  constructor
  · rintro ⟨p, _, hp⟩
    rw [Bool.and_eq_true, Bool.and_eq_true] at hp
    exact ⟨p, hp.1.1, hp.1.2, hp.2⟩
  · rintro ⟨p, h1, h2, h3⟩
    refine ⟨p, List.mem_range.2 ?_, ?_⟩
    · have := boundaryAt_le_length h2
      omega
    · rw [Bool.and_eq_true, Bool.and_eq_true]
      exact ⟨⟨h1, h2⟩, h3⟩

theorem testWholeWord_map_lowerChar (k t : List Char) :
    testWholeWord k (t.map lowerChar) = testWholeWord k t := by
  unfold testWholeWord
  rw [List.length_map]
  congr 1
  funext p
  rw [matchesAt_map_lowerChar, boundaryAt_map_lowerChar, boundaryAt_map_lowerChar]

theorem testWholeWord_lower_iff (kw text : String) :
    testWholeWord kw.data (lowerStr text).data = true ↔ occursAsWholeWordCI kw text := by
  have hdata : (lowerStr text).data = text.data.map lowerChar := rfl
  rw [hdata, testWholeWord_map_lowerChar, testWholeWord_iff]
  exact Iff.rfl

theorem lockTrace_finish_le_begin (tr : LockTrace) : ∀ {i j : ℕ}, i < j →
    tr.finishes i ≤ tr.begins j := by
  intro i j
  induction j with
  | zero => intro h; exact absurd h (Nat.not_lt_zero i)
  | succ j ih =>
      intro h
      rcases Nat.lt_succ_iff_lt_or_eq.1 h with h' | h'
      · exact le_trans (ih h') (le_trans (tr.begin_le_finish j) (tr.chain_discipline j))
      · subst h'
        exact tr.chain_discipline i

theorem lockChain_ok (n : ℕ) : lockChain n = Except.ok () := by
  induction n with
  | zero => rfl
  | succ n ih => simp [lockChain, ih]

theorem setupBody_cleanup (st : ProcState) (uid key filename : String) (ev : RunEvent) :
    (setupBody st uid key filename ev).1 =
      ⟨st.processingQueue.erase key, st.activeUsers.erase uid, st.files.erase filename⟩ := by
  cases ev with
  | captureError => rfl
  | run samples text cbThrows =>
      unfold setupBody
      dsimp only
      rw [qualityGateRun_fst]
      cases hq : qualityGate samples with
      | accepted => split_ifs <;> rfl
      | tooSmall => simp [qualityGateRun_snd, hq, cleanupFinally]
      | tooShort => simp [qualityGateRun_snd, hq, cleanupFinally]
      | tooQuiet => simp [qualityGateRun_snd, hq, cleanupFinally]

theorem setupBody_invoked (st : ProcState) (uid key filename : String) (samples : List ℤ)
    (text : String) (cbThrows : Bool) :
    (setupBody st uid key filename (RunEvent.run samples text cbThrows)).2 = true ↔
      (qualityGate samples = GateOutcome.accepted ∧ trimStr text ≠ "") := by
  unfold setupBody
  dsimp only
  rw [qualityGateRun_fst]
  cases hq : qualityGate samples with
  | accepted => split_ifs with h1 h2 <;> simp_all
  | tooSmall => simp
  | tooShort => simp
  | tooQuiet => simp

theorem setupFull_admitted (st : ProcState) (uid key filename : String) (ev : RunEvent)
    (tm : Bool) (h1 : uid ∉ st.activeUsers) (h2 : st.processingQueue.card < MAX_CONCURRENT) :
    setupFull st uid key filename ev tm =
      ((setupBody (if tm
          then timeoutHandler ⟨insert key st.processingQueue, insert uid st.activeUsers,
                insert filename st.files⟩ key
          else ⟨insert key st.processingQueue, insert uid st.activeUsers,
                insert filename st.files⟩) uid key filename ev).1, true,
       (setupBody (if tm
          then timeoutHandler ⟨insert key st.processingQueue, insert uid st.activeUsers,
                insert filename st.files⟩ key
          else ⟨insert key st.processingQueue, insert uid st.activeUsers,
                insert filename st.files⟩) uid key filename ev).2) := by
  unfold setupFull
  simp [admission_accept st uid key h1 h2]

theorem recognizeAudio_throws (vr : RecognizerRun)
    (h : vr.readFails = true ∨ vr.parseThrows = true) : recognizeAudio vr = "" := by
  unfold recognizeAudio recognizeAudioBody
  rcases h with h | h
  · rw [if_pos h]
  · by_cases hr : vr.readFails = true
    · rw [if_pos hr]
    · rw [if_neg hr, if_pos h]

theorem setupFull_timeout_invoked (st : ProcState) (uid key filename : String)
    (samples : List ℤ) (text : String) (cb : Bool) (h1 : uid ∉ st.activeUsers)
    (h2 : st.processingQueue.card < MAX_CONCURRENT) :
    (setupFull st uid key filename (RunEvent.run samples text cb) true).2.2 = true ↔
      (qualityGate samples = GateOutcome.accepted ∧ trimStr text ≠ "") := by
  rw [setupFull_admitted st uid key filename (RunEvent.run samples text cb) true h1 h2]
  exact setupBody_invoked _ uid key filename samples text cb

/-! ## Claim theorems -/

/-- Claim C1: Recognition calls chained through `transcriptionLock` form one
first-in-first-out queue over the shared recognition resource. In every trace
obeying the promise-chaining discipline of line 292, a chained `recognizeAudio`
call begins only after every earlier-chained call has finished — for `j = i+1`
this is "begins only after the previous chained call completed", and since
chain order is the order `transcribeAudio` reached the chaining point, the
calls execute in that order — and at no instant are two distinct chained calls
executing against the shared resource. -/
theorem transcription_lock_serializes (tr : LockTrace) :
    (∀ i j, i < j → tr.finishes i ≤ tr.begins j) ∧
    (∀ (t : ℚ) (i j : ℕ), runningAt tr i t → runningAt tr j t → i = j) := by
  constructor
  · intro i j h
    exact lockTrace_finish_le_begin tr h
  · intro t i j hi hj
    by_contra hne
    rcases Nat.lt_or_ge i j with h | h
    · have hle := lockTrace_finish_le_begin tr h
      exact absurd (lt_of_lt_of_le hi.2 (le_trans hle hj.1)) (lt_irrefl t)
    · rcases Nat.lt_or_ge j i with h' | h'
      · have hle := lockTrace_finish_le_begin tr h'
        exact absurd (lt_of_lt_of_le hj.2 (le_trans hle hi.1)) (lt_irrefl t)
      · omega

/-- Witness for C1 at the concrete schedule `sampleLockTrace`: call 0 finishes
before call 1 begins. -/
theorem transcription_lock_serializes_witness :
    sampleLockTrace.finishes 0 ≤ sampleLockTrace.begins 1 :=
  (transcription_lock_serializes sampleLockTrace).1 0 1 (by decide)

/-- Claim C2: admission is rejected whenever the in-flight set has reached
`MAX_CONCURRENT` (fourth conjunct), hence the in-flight set never exceeds the
ceiling (third conjunct); and a burst of `n > MAX_CONCURRENT` simultaneous
speaker-start events from distinct speakers, none in flight, admits exactly
`MAX_CONCURRENT` and rejects exactly `n - MAX_CONCURRENT`. -/
theorem scheduler_ceiling (us : List String) (hnd : us.Nodup)
    (hn : MAX_CONCURRENT < us.length) :
    (admitAll procEmpty us).2.1 = MAX_CONCURRENT ∧
    (admitAll procEmpty us).2.2 = us.length - MAX_CONCURRENT ∧
    (∀ st : ProcState, ∀ u k : String, st.processingQueue.card ≤ MAX_CONCURRENT →
      (admission st u k).1.processingQueue.card ≤ MAX_CONCURRENT) ∧
    (∀ st : ProcState, ∀ u k : String, MAX_CONCURRENT ≤ st.processingQueue.card →
      (admission st u k).2 = false) := by
  have hspec := admitAll_spec us procEmpty hnd (by intro u _; simp [procEmpty])
    (by intro u _; simp [procEmpty]) (by simp [procEmpty])
  have htot := admitAll_total us procEmpty
  have hcard : procEmpty.processingQueue.card = 0 := by simp [procEmpty]
  rw [hcard] at hspec
  have h1 := hspec.1
  refine ⟨by omega, by omega, ?_, ?_⟩
  · intro st u k hle
    unfold admission
    split_ifs with h h'
    · exact hle
    · exact hle
    · have hc := Finset.card_insert_le k st.processingQueue
      show (insert k st.processingQueue).card ≤ MAX_CONCURRENT
      omega
  · intro st u k hfull
    rw [admission_reject_full st u k hfull]

/-- Witness for C2: seven distinct speakers starting at once against the empty
scheduler — five admitted, two rejected. -/
theorem scheduler_ceiling_witness :
    (["u1", "u2", "u3", "u4", "u5", "u6", "u7"] : List String).Nodup ∧
    MAX_CONCURRENT < (["u1", "u2", "u3", "u4", "u5", "u6", "u7"] : List String).length ∧
    (admitAll procEmpty ["u1", "u2", "u3", "u4", "u5", "u6", "u7"]).2.1 = MAX_CONCURRENT ∧
    (admitAll procEmpty ["u1", "u2", "u3", "u4", "u5", "u6", "u7"]).2.2 =
      (["u1", "u2", "u3", "u4", "u5", "u6", "u7"] : List String).length - MAX_CONCURRENT :=
  ⟨by decide, by decide,
   (scheduler_ceiling ["u1", "u2", "u3", "u4", "u5", "u6", "u7"] (by decide) (by decide)).1,
   (scheduler_ceiling ["u1", "u2", "u3", "u4", "u5", "u6", "u7"] (by decide) (by decide)).2.1⟩

/-- Claim C3 is refuted by the code (code bug): in `cooldownTrace` speaker
"alice" is under an active cooldown — her entry expires at `2 + COOLDOWN_MS =
10002` and the current instant is 4 — yet her speaker-started event at t = 4
creates a capture task: the `speaking.on('start')` listener attached before
the kick is never removed (`monitoredUsers` is not cleaned on kick or leave),
and `setupUserAudioCapture` never consults the cooldown map, so a speaker
under active cooldown is re-admitted into the scheduler, contradicting the
claim and the code's own comment "prevents instant re-kick". -/
theorem cooldown_bypassed_by_stale_listener :
    cooldownTrace.userCooldowns.lookup "alice" = some (2 + COOLDOWN_MS) ∧
    4 < 2 + COOLDOWN_MS ∧
    ("alice", 4) ∈ cooldownTrace.captures := by
  refine ⟨by decide, by decide, by decide⟩

/-- Claim C4: the quality gate rejects exactly when the byte length is below
`MIN_AUDIO_BYTES`, or the estimated duration (byte length divided by 192000,
times 1000) is below `MIN_AUDIO_DURATION_MS`, or the RMS energy (the square
root of the mean squared sample amplitude) is below `MIN_ENERGY`; the three
checks run in source order with the first failing check naming the outcome
(short-circuit); every rejection deletes the scratch file, and acceptance
leaves the file system untouched. -/
theorem quality_gate_characterization (samples : List ℤ) (files : Finset String)
    (filename : String) :
    ((qualityGateRun files filename samples).1 ≠ GateOutcome.accepted ↔
      (2 * samples.length < MIN_AUDIO_BYTES ∨
       ((2 * samples.length : ℕ) : ℚ) / 192000 * 1000 < MIN_AUDIO_DURATION_MS ∨
       Real.sqrt ((calculateAudioEnergySq samples : ℚ) : ℝ) < ((MIN_ENERGY : ℚ) : ℝ))) ∧
    ((qualityGateRun files filename samples).1 = GateOutcome.tooSmall ↔
      2 * samples.length < MIN_AUDIO_BYTES) ∧
    ((qualityGateRun files filename samples).1 = GateOutcome.tooShort ↔
      (¬ 2 * samples.length < MIN_AUDIO_BYTES ∧
       ((2 * samples.length : ℕ) : ℚ) / 192000 * 1000 < MIN_AUDIO_DURATION_MS)) ∧
    ((qualityGateRun files filename samples).1 = GateOutcome.tooQuiet ↔
      (¬ 2 * samples.length < MIN_AUDIO_BYTES ∧
       ¬ ((2 * samples.length : ℕ) : ℚ) / 192000 * 1000 < MIN_AUDIO_DURATION_MS ∧
       Real.sqrt ((calculateAudioEnergySq samples : ℚ) : ℝ) < ((MIN_ENERGY : ℚ) : ℝ))) ∧
    ((qualityGateRun files filename samples).1 ≠ GateOutcome.accepted →
      filename ∉ (qualityGateRun files filename samples).2) ∧
    ((qualityGateRun files filename samples).1 = GateOutcome.accepted →
      (qualityGateRun files filename samples).2 = files) := by
  have hfst := qualityGateRun_fst files filename samples
  have hsnd := qualityGateRun_snd files filename samples
  simp only [hfst, hsnd, sqrt_energy_lt_iff]
  refine ⟨?_, qualityGate_tooSmall_iff samples, qualityGate_tooShort_iff samples,
    qualityGate_tooQuiet_iff samples, ?_, ?_⟩
  · constructor
    · intro h
      by_contra hall
      rw [not_or, not_or] at hall
      exact h ((qualityGate_accepted_iff samples).2 ⟨hall.1, hall.2.1, hall.2.2⟩)
    · intro h he
      rcases (qualityGate_accepted_iff samples).1 he with ⟨h1, h2, h3⟩
      tauto
  · intro h
    rw [if_neg h]
    exact Finset.not_mem_erase filename files
  · intro h
    rw [if_pos h]

/-- Witness for C4: the empty capture (0 bytes) is rejected as too small, and
its scratch file is deleted. -/
theorem quality_gate_characterization_witness :
    ((qualityGateRun ({"q.pcm"} : Finset String) "q.pcm" ([] : List ℤ)).1 =
      GateOutcome.tooSmall ↔ 2 * ([] : List ℤ).length < MIN_AUDIO_BYTES) ∧
    "q.pcm" ∉ (qualityGateRun ({"q.pcm"} : Finset String) "q.pcm" ([] : List ℤ)).2 :=
  ⟨(quality_gate_characterization [] {"q.pcm"} "q.pcm").2.1,
   (quality_gate_characterization [] {"q.pcm"} "q.pcm").2.2.2.2.1 (by decide)⟩

/-- Claim C5: for every admitted task and every pipeline outcome — a stream
error thrown during capture, a quality-gate rejection on any of the three
checks, or a completed transcription whose callback returns or throws — and
whether or not the timeout fired in between, when `setupUserAudioCapture`
terminates the processing key has been removed from the in-flight set, the
speaker has been removed from the active-users set, and the scratch audio
file no longer exists: the `finally` block plus the per-branch deletions form
a single cleanup point. -/
theorem cleanup_on_every_path (st : ProcState) (uid key filename : String)
    (ev : RunEvent) (tm : Bool) (h1 : uid ∉ st.activeUsers)
    (h2 : st.processingQueue.card < MAX_CONCURRENT) :
    (setupFull st uid key filename ev tm).2.1 = true ∧
    key ∉ (setupFull st uid key filename ev tm).1.processingQueue ∧
    uid ∉ (setupFull st uid key filename ev tm).1.activeUsers ∧
    filename ∉ (setupFull st uid key filename ev tm).1.files := by
  rw [setupFull_admitted st uid key filename ev tm h1 h2]
  refine ⟨rfl, ?_, ?_, ?_⟩
  · rw [setupBody_cleanup]
    exact Finset.not_mem_erase key _
  · rw [setupBody_cleanup]
    exact Finset.not_mem_erase uid _
  · rw [setupBody_cleanup]
    exact Finset.not_mem_erase filename _

/-- Witness for C5: a capture from the empty scheduler whose stream errors,
without a timeout — the key, the user and the scratch file are all gone. -/
theorem cleanup_on_every_path_witness :
    ("bob" ∉ procEmpty.activeUsers) ∧
    (procEmpty.processingQueue.card < MAX_CONCURRENT) ∧
    "bob-0" ∉ (setupFull procEmpty "bob" "bob-0" "b.pcm"
        RunEvent.captureError false).1.processingQueue ∧
    "bob" ∉ (setupFull procEmpty "bob" "bob-0" "b.pcm"
        RunEvent.captureError false).1.activeUsers ∧
    "b.pcm" ∉ (setupFull procEmpty "bob" "bob-0" "b.pcm"
        RunEvent.captureError false).1.files :=
  ⟨by decide, by decide,
   (cleanup_on_every_path procEmpty "bob" "bob-0" "b.pcm" RunEvent.captureError false
     (by decide) (by decide)).2.1,
   (cleanup_on_every_path procEmpty "bob" "bob-0" "b.pcm" RunEvent.captureError false
     (by decide) (by decide)).2.2.1,
   (cleanup_on_every_path procEmpty "bob" "bob-0" "b.pcm" RunEvent.captureError false
     (by decide) (by decide)).2.2.2⟩

/-- Claim C6 is false as stated: a concrete run in which the timeout fired and
reclaimed the accounting slot before the pipeline completed
(`timeoutFires = true`), the segment passes the quality gate and the late
transcription is "hello there" — and `onTranscription` IS invoked
(`.2.2 = true`) for this task that timed out before completing. The timeout
handler (lines 64-69) only deletes the queue key; nothing checks that the
task is still registered before line 128 invokes the callback. -/
theorem timeout_callback_still_invoked :
    (setupFull procEmpty "alice" "alice-0" "a.pcm"
      (RunEvent.run loudSamples "hello there" false) true).2.2 = true :=
  (setupFull_timeout_invoked procEmpty "alice" "alice-0" "a.pcm" loudSamples "hello there"
    false (by decide) (by decide)).2 ⟨qualityGate_loudSamples, by decide⟩

/-- Claim C6 (amended): when the timeout fires and reclaims the accounting
slot while the task's pipeline is still running, the stale task's eventual
completion is a no-op against the scheduler accounting — the processing
queue, the active-user set and the file system end exactly as they were
before the task started, the second deletion of the already-removed key
changing nothing — but the late result is NOT discarded: `onTranscription`
is invoked exactly when the segment passed the quality gate and the late
transcription is non-blank, the timeout notwithstanding. -/
theorem timeout_late_completion (st : ProcState) (uid key filename : String)
    (samples : List ℤ) (text : String) (h1 : uid ∉ st.activeUsers)
    (h2 : st.processingQueue.card < MAX_CONCURRENT)
    (h3 : key ∉ st.processingQueue) (h4 : filename ∉ st.files) :
    (setupFull st uid key filename (RunEvent.run samples text false) true).1 = st ∧
    ((setupFull st uid key filename (RunEvent.run samples text false) true).2.2 = true ↔
      (qualityGate samples = GateOutcome.accepted ∧ trimStr text ≠ "")) := by
  rw [setupFull_admitted st uid key filename (RunEvent.run samples text false) true h1 h2]
  have hst3 : timeoutHandler ⟨insert key st.processingQueue, insert uid st.activeUsers,
      insert filename st.files⟩ key =
      ⟨st.processingQueue, insert uid st.activeUsers, insert filename st.files⟩ := by
    unfold timeoutHandler
    rw [if_pos (Finset.mem_insert_self key st.processingQueue)]
    simp [Finset.erase_insert h3]
  constructor
  · show (setupBody (if true then _ else _) uid key filename _).1 = st
    rw [if_pos rfl, hst3, setupBody_cleanup]
    rw [Finset.erase_eq_of_not_mem h3, Finset.erase_insert h1, Finset.erase_insert h4]
  · show (setupBody (if true then _ else _) uid key filename _).2 = true ↔ _
    rw [if_pos rfl, hst3]
    exact setupBody_invoked _ uid key filename samples text false

/-- Witness for the amended C6: a timed-out capture of a too-short segment
from the empty scheduler leaves the processor state exactly as it started. -/
theorem timeout_late_completion_witness :
    (setupFull procEmpty "bob" "bob-0" "b.pcm"
      (RunEvent.run quietSamples "x" false) true).1 = procEmpty :=
  (timeout_late_completion procEmpty "bob" "bob-0" "b.pcm" quietSamples "x"
    (by decide) (by decide) (by decide) (by decide)).1

/-- Claim C7: `transcribeAudio` never propagates an exception past the
Recognition Stage boundary — its result is always `Except.ok`, and the
promise chain it awaits is fulfilled for every chain length (last conjunct).
If the enhancement subprocess fails to spawn or exits non-zero it returns the
empty string; if the recognition backend throws (read failure or parse
failure) the returned text is empty; and whenever the recognition call
actually ran (conversion succeeded and the converted file existed), the
converted scratch file has been deleted when the call returns, on the success
and the failure path alike. -/
theorem transcribe_never_throws (fb : FfmpegRun) (vr : RecognizerRun)
    (files : Finset String) (filename : String) :
    (transcribeAudio fb vr files filename).isOk = true ∧
    ((fb.spawnFails = true ∨ fb.exitCode ≠ 0) →
      transcribeAudio fb vr files filename =
        .ok ("", (convertAudio fb files filename).2)) ∧
    ((vr.readFails = true ∨ vr.parseThrows = true) →
      ∀ t fs, transcribeAudio fb vr files filename = .ok (t, fs) → t = "") ∧
    ((fb.spawnFails = false ∧ fb.exitCode = 0 ∧ fb.wroteOutput = true) →
      ∀ t fs, transcribeAudio fb vr files filename = .ok (t, fs) →
        (filename ++ ".converted.pcm") ∉ fs) ∧
    (∀ n, lockChain n = Except.ok ()) := by
  have hconv : ∀ c fs1, convertAudio fb files filename = (c, fs1) →
      transcribeAudio fb vr files filename =
        (match c with
         | none => .ok ("", fs1)
         | some cf => if cf ∈ fs1 then .ok (recognizeAudio vr, fs1.erase cf)
                      else .ok ("", fs1)) := by
    intro c fs1 hc
    unfold transcribeAudio
    rw [hc]
    cases c <;> rfl
  refine ⟨?_, ?_, ?_, ?_, lockChain_ok⟩
  · rcases hc : convertAudio fb files filename with ⟨c, fs1⟩
    rw [hconv c fs1 hc]
    cases c with
    | none => rfl
    | some cf => dsimp only; split <;> rfl
  · intro hfail
    have hnone : convertAudio fb files filename = (none, (convertAudio fb files filename).2) := by
      unfold convertAudio
      rcases hfail with h | h
      · rw [if_pos h]
      · by_cases hs : fb.spawnFails = true
        · rw [if_pos hs]
        · rw [if_neg hs]
          dsimp only
          rw [if_pos h]
    rw [hconv none _ hnone]
  · intro hthrow t fs heq
    rcases hc : convertAudio fb files filename with ⟨c, fs1⟩
    rw [hconv c fs1 hc] at heq
    cases c with
    | none =>
        simp only [Except.ok.injEq, Prod.mk.injEq] at heq
        exact heq.1.symm
    | some cf =>
        dsimp only at heq
        split at heq <;> simp only [Except.ok.injEq, Prod.mk.injEq] at heq
        · rw [← heq.1, recognizeAudio_throws vr hthrow]
        · exact heq.1.symm
  · intro hok t fs heq
    have hc : convertAudio fb files filename =
        (some (filename ++ ".converted.pcm"),
         insert (filename ++ ".converted.pcm") files) := by
      unfold convertAudio
      rw [if_neg (by simp [hok.1])]
      dsimp only
      rw [hok.2.2, if_pos rfl, if_neg (by simp [hok.2.1])]
    rw [hconv _ _ hc] at heq
    dsimp only at heq
    rw [if_pos (Finset.mem_insert_self _ _)] at heq
    simp only [Except.ok.injEq, Prod.mk.injEq] at heq
    rw [← heq.2]
    exact Finset.not_mem_erase _ _

/-- Witness for C7: a spawn failure yields `Except.ok` with the empty
transcription. -/
theorem transcribe_never_throws_witness :
    transcribeAudio ⟨true, 0, false⟩ ⟨false, false, [], none⟩ ∅ "f.pcm" =
      .ok ("", (convertAudio ⟨true, 0, false⟩ ∅ "f.pcm").2) :=
  (transcribe_never_throws ⟨true, 0, false⟩ ⟨false, false, [], none⟩ ∅ "f.pcm").2.1
    (Or.inl rfl)

/-- Claim C8: subscribing is idempotent. A second `monitorUser` call for the
same (guild, speaker) pair while the subscription is active is a complete
no-op (first conjunct: no duplicate listener, hence no duplicate capture
task); `monitorUser` preserves the invariant that every pair has at most one
live listener, registered iff the pair is in the monitored set (second
conjunct); and a speaker who already has an in-flight task is not admitted
again by `setupUserAudioCapture` (third conjunct). -/
theorem monitor_idempotent (st : BotState) (g uid : String) :
    monitorUser (monitorUser st g uid) g uid = monitorUser st g uid ∧
    (ListenerInv st → ListenerInv (monitorUser st g uid)) ∧
    (∀ p : ProcState, ∀ u k : String, u ∈ p.activeUsers → admission p u k = (p, false)) := by
  refine ⟨?_, ?_, fun p u k hu => admission_reject_active p u k hu⟩
  · by_cases h : (g ++ "-" ++ uid) ∈ st.monitoredUsers
    · have h1 : monitorUser st g uid = st := by
        unfold monitorUser
        rw [if_pos h]
      rw [h1, h1]
    · have h1 : monitorUser st g uid =
          { st with monitoredUsers := insert (g ++ "-" ++ uid) st.monitoredUsers,
                    listeners := (g ++ "-" ++ uid) :: st.listeners } := by
        unfold monitorUser
        rw [if_neg h]
      rw [h1]
      unfold monitorUser
      rw [if_pos (Finset.mem_insert_self _ _)]
  · intro hinv
    unfold monitorUser
    split_ifs with h
    · exact hinv
    · intro k
      have hk := hinv k
      by_cases hek : k = g ++ "-" ++ uid
      · subst hek
        have h1 := hk.1
        have h0 : st.listeners.count (g ++ "-" ++ uid) = 0 := by
          by_contra hne
          exact h (hk.2.mp (by omega))
        refine ⟨by simp [List.count_cons_self, h0], ?_⟩
        simp [List.count_cons_self, h0, Finset.mem_insert_self]
      · refine ⟨?_, ?_⟩
        · rw [List.count_cons_of_ne hek]
          exact hk.1
        · rw [List.count_cons_of_ne hek, Finset.mem_insert]
          constructor
          · intro hc
            exact Or.inr (hk.2.mp hc)
          · rintro (hc | hc)
            · exact absurd hc hek
            · exact hk.2.mpr hc

/-- Witness for C8: from the fresh bot state, monitoring ("g", "u") twice
equals monitoring once, and the listener invariant holds afterwards. -/
theorem monitor_idempotent_witness :
    monitorUser (monitorUser initialBot "g" "u") "g" "u" = monitorUser initialBot "g" "u" ∧
    ListenerInv (monitorUser initialBot "g" "u") :=
  ⟨(monitor_idempotent initialBot "g" "u").1,
   (monitor_idempotent initialBot "g" "u").2.1 (by
     intro k
     constructor
     · simp [initialBot]
     · simp [initialBot])⟩

/-- Claim C9: `detectSports` reports a detection exactly when some configured
term occurs in the text as a whole word (word-boundary delimited) under
case-insensitive matching; the returned keyword list contains exactly the
configured terms that so occur; and the mutation API changes membership of
the consulted set: `addKeyword` puts the lower-cased term in,
`removeKeyword` takes it out. -/
theorem detect_whole_word_exact (d : SportsDetector) (text kw : String)
    (hnd : d.sportsKeywords.Nodup) :
    ((detectSports d text).1 = true ↔
      ∃ k2 ∈ d.sportsKeywords, occursAsWholeWordCI k2 text) ∧
    (∀ k2, k2 ∈ (detectSports d text).2 ↔
      (k2 ∈ d.sportsKeywords ∧ occursAsWholeWordCI k2 text)) ∧
    lowerStr kw ∈ (addKeyword d kw).sportsKeywords ∧
    lowerStr kw ∉ (removeKeyword d kw).sportsKeywords := by
  refine ⟨?_, ?_, ?_, ?_⟩
  · unfold detectSports
    dsimp only
    rw [decide_eq_true_eq, List.length_pos_iff_exists_mem]
    constructor
    · rintro ⟨x, hx⟩
      rw [List.mem_filter] at hx
      exact ⟨x, hx.1, (testWholeWord_lower_iff x text).1 hx.2⟩
    · rintro ⟨x, hx1, hx2⟩
      exact ⟨x, List.mem_filter.2 ⟨hx1, (testWholeWord_lower_iff x text).2 hx2⟩⟩
  · intro k2
    unfold detectSports
    dsimp only
    rw [List.mem_filter]
    constructor
    · rintro ⟨hm, ht⟩
      exact ⟨hm, (testWholeWord_lower_iff k2 text).1 ht⟩
    · rintro ⟨hm, ht⟩
      exact ⟨hm, (testWholeWord_lower_iff k2 text).2 ht⟩
  · unfold addKeyword
    split_ifs with h
    · exact h
    · simp
  · unfold removeKeyword
    exact List.Nodup.not_mem_erase hnd

/-- Witness for C9 on a concrete detector and text: the detection
characterization at ({"touchdown", "goal"}, "What a TOUCHDOWN today"),
together with the concrete evaluation showing the match fires. -/
theorem detect_whole_word_exact_witness :
    (["touchdown", "goal"] : List String).Nodup ∧
    ((detectSports ⟨["touchdown", "goal"]⟩ "What a TOUCHDOWN today").1 = true ↔
      ∃ k2 ∈ (["touchdown", "goal"] : List String),
        occursAsWholeWordCI k2 "What a TOUCHDOWN today") ∧
    (detectSports ⟨["touchdown", "goal"]⟩ "What a TOUCHDOWN today").1 = true :=
  ⟨by decide,
   (detect_whole_word_exact ⟨["touchdown", "goal"]⟩ "What a TOUCHDOWN today" "x"
     (by decide)).1,
   by decide⟩

/-- Claim C10 (implicit): `calculateAudioEnergy` divides by the number of
16-bit samples; at its only call site it runs only after the byte gate has
passed (the gate outcome is not `tooSmall`), so the sample count is positive,
the divisor is non-zero, the mean square is non-negative, and the RMS —
`Math.sqrt` of the mean square — is a well-defined non-negative real (its
square recovers the mean square; never NaN). -/
theorem energy_division_safe (samples : List ℤ)
    (h : qualityGate samples ≠ GateOutcome.tooSmall) :
    0 < samples.length ∧ ((samples.length : ℚ) ≠ 0) ∧
    0 ≤ calculateAudioEnergySq samples ∧
    Real.sqrt ((calculateAudioEnergySq samples : ℚ) : ℝ) ^ 2 =
      ((calculateAudioEnergySq samples : ℚ) : ℝ) ∧
    0 ≤ Real.sqrt ((calculateAudioEnergySq samples : ℚ) : ℝ) := by
  have hlen : ¬ 2 * samples.length < MIN_AUDIO_BYTES := fun hc =>
    h ((qualityGate_tooSmall_iff samples).2 hc)
  have hpos : 0 < samples.length := by
    simp only [MIN_AUDIO_BYTES] at hlen
    omega
  have hnn : 0 ≤ calculateAudioEnergySq samples := calculateAudioEnergySq_nonneg samples
  have hnnR : (0 : ℝ) ≤ ((calculateAudioEnergySq samples : ℚ) : ℝ) := by exact_mod_cast hnn
  exact ⟨hpos, Nat.cast_ne_zero.mpr (by omega), hnn, Real.sq_sqrt hnnR, Real.sqrt_nonneg _⟩

/-- Witness for C10 at 1024 zero samples: the byte gate passes (the outcome is
`tooShort`, not `tooSmall`) and the sample count is positive. -/
theorem energy_division_safe_witness :
    qualityGate quietSamples ≠ GateOutcome.tooSmall ∧ 0 < quietSamples.length :=
  ⟨by rw [qualityGate_quietSamples]; decide,
   (energy_division_safe quietSamples (by rw [qualityGate_quietSamples]; decide)).1⟩
